import Mathlib

/-!
Verification of the KSU-Storm teleoperation link layer and command protocol.

The development shallowly embeds the Rust sources:
  * `robot.rs`  — kinematic mapper, command dispatcher, TCP session decode loop;
  * `driver.rs` — connection supervisor, send path, gamepad polling tick;
  * `link.rs`   — TCP and serial link receive semantics.

Machine floats (`f32`) are modelled as exact rationals `ℚ`; byte buffers are
modelled as `List Char` (all protocol traffic in scope is ASCII, where the
lossy UTF-8 decode of `String::from_utf8_lossy` is the identity).
-/

/-! ## Kinematic mapper (`robot.rs`, `calculate_motor_speeds`) -/

/-- The four joystick axis values carried by a `JOYSTICKS` message
(`struct JoystickData` in `robot.rs`). -/
structure JoystickData where
  lx : ℚ
  ly : ℚ
  rx : ℚ
  ry : ℚ
deriving DecidableEq, Repr

/-- Executable absolute value on `ℚ`, modelling `f32::abs`. -/
def rabs (x : ℚ) : ℚ := if x < 0 then -x else x

/-- Executable binary maximum on `ℚ`, modelling `f32::max`. -/
def rmax (a b : ℚ) : ℚ := if a < b then b else a

/-- Embeds `calculate_motor_speeds`: the four raw mecanum speeds are fixed
linear combinations of `lx, ly, rx` (`ry` is unused), and when the peak
absolute raw speed exceeds `1.0` all four are divided by that peak. -/
def calculate_motor_speeds (data : JoystickData) : ℚ × ℚ × ℚ × ℚ :=
  let m1 := data.lx + data.ly + data.rx
  let m2 := -data.lx + data.ly - data.rx
  let m3 := -data.lx - data.ly + data.rx
  let m4 := data.lx - data.ly - data.rx
  let maxSpeed := rmax (rmax (rmax (rabs m1) (rabs m2)) (rabs m3)) (rabs m4)
  if maxSpeed > 1 then
    (m1 / maxSpeed, m2 / maxSpeed, m3 / maxSpeed, m4 / maxSpeed)
  else
    (m1, m2, m3, m4)

/-- The pre-normalization raw speeds (the `m1..m4` let-bindings of
`calculate_motor_speeds` before the scaling branch). -/
def rawSpeeds (data : JoystickData) : ℚ × ℚ × ℚ × ℚ :=
  (data.lx + data.ly + data.rx,
   -data.lx + data.ly - data.rx,
   -data.lx - data.ly + data.rx,
   data.lx - data.ly - data.rx)

/-- Peak absolute value of a speed 4-tuple (the `max_speed` computation). -/
def maxAbs4 (m : ℚ × ℚ × ℚ × ℚ) : ℚ :=
  rmax (rmax (rmax (rabs m.1) (rabs m.2.1)) (rabs m.2.2.1)) (rabs m.2.2.2)

/-- Component projection of a speed 4-tuple. -/
def nth4 (m : ℚ × ℚ × ℚ × ℚ) : Fin 4 → ℚ
  | 0 => m.1
  | 1 => m.2.1
  | 2 => m.2.2.1
  | 3 => m.2.2.2

/-- Uniform scaling of a speed 4-tuple. -/
def scale4 (c : ℚ) (m : ℚ × ℚ × ℚ × ℚ) : ℚ × ℚ × ℚ × ℚ :=
  (c * m.1, c * m.2.1, c * m.2.2.1, c * m.2.2.2)

/-! ## Command dispatcher (`robot.rs`, `handle_command`)

Byte strings are modelled as `List Char`. -/

/-- Accumulator-based splitter on Unicode whitespace, modelling
`str::split_whitespace` (empty tokens are skipped). -/
def splitWsAux : List Char → List Char → List (List Char)
  | [], acc => if acc.isEmpty then [] else [acc.reverse]
  | c :: cs, acc =>
      if c.isWhitespace then
        if acc.isEmpty then splitWsAux cs []
        else acc.reverse :: splitWsAux cs []
      else splitWsAux cs (c :: acc)

def splitWhitespace (s : List Char) : List (List Char) := splitWsAux s []

/-- Models `str::trim`: strips leading and trailing whitespace. -/
def trimWs (s : List Char) : List Char :=
  ((s.dropWhile Char.isWhitespace).reverse.dropWhile Char.isWhitespace).reverse

/-- Models `str::split(',')`: comma-separated segments, empty segments
kept. -/
def splitComma : List Char → List (List Char)
  | [] => [[]]
  | c :: cs =>
      if c = ',' then [] :: splitComma cs
      else
        match splitComma cs with
        | [] => [[c]]
        | t :: ts => (c :: t) :: ts

/-- Numeric value of a digit string. -/
def digitsNat (ds : List Char) : ℕ :=
  ds.foldl (fun acc c => 10 * acc + (c.toNat - 48)) 0

/-- The exponent tail after an `e`/`E`: an optional sign followed by at
least one digit. -/
def parseExpPart (s : List Char) : Option ℤ :=
  let q : ℤ × List Char :=
    match s with
    | '-' :: r => (-1, r)
    | '+' :: r => (1, r)
    | _ => (1, s)
  if q.2.isEmpty || !(q.2.all Char.isDigit) then none
  else some (q.1 * (digitsNat q.2 : ℤ))

/-- Models `str::parse::<f32>()` on its finite numeral grammar: an optional
sign, a mantissa holding at least one digit (integer digits, and/or a `.`
followed by fractional digits), and an optional `e`/`E` exponent with an
optional sign and at least one digit. Values are kept exact in `ℚ` (the
file's `f32`-as-`ℚ` idealization). Rust additionally accepts the `inf`,
`infinity` and `NaN` spellings, which denote no finite value and have no
`ℚ` counterpart. -/
def parseFloat (s : List Char) : Option ℚ :=
  let p : ℚ × List Char :=
    match s with
    | '-' :: r => (-1, r)
    | '+' :: r => (1, r)
    | _ => (1, s)
  let intPart := p.2.takeWhile Char.isDigit
  let rest1 := p.2.dropWhile Char.isDigit
  let fp : List Char × List Char :=
    match rest1 with
    | '.' :: r => (r.takeWhile Char.isDigit, r.dropWhile Char.isDigit)
    | _ => ([], rest1)
  if intPart.isEmpty && fp.1.isEmpty then none
  else
    let mant : ℚ := (digitsNat intPart : ℚ) + (digitsNat fp.1 : ℚ) / 10 ^ fp.1.length
    match fp.2 with
    | [] => some (p.1 * mant)
    | 'e' :: r => (parseExpPart r).map (fun e => p.1 * mant * (10:ℚ) ^ e)
    | 'E' :: r => (parseExpPart r).map (fun e => p.1 * mant * (10:ℚ) ^ e)
    | _ => none

/-- The observable effects of one `handle_command` call: the motor update
(with its `println!` report), the `eprintln!` invalid-count report, the
`BUTTON_PRESS` action, or the unknown-command report. -/
inductive Effect where
  | buttonAction
  | motorUpdate (speeds : ℚ × ℚ × ℚ × ℚ)
  | invalidCount (valuesStr : List Char)
  | unknownCommand (cmd : List Char)
deriving DecidableEq, Repr

/-- Embeds `handle_command`. The source checks `speeds.len() == 4` and then
indexes `speeds[0]..speeds[3]`; that is embedded as a four-element list
match. `PING` deliberately has no effect (its print is commented out in the
source). -/
def handleCommand (cmd : List Char) : List Effect :=
  let parts := splitWhitespace (trimWs cmd)
  match parts.head? with
  | none => []
  | some commandName =>
      if commandName = "BUTTON_PRESS".toList then [Effect.buttonAction]
      else if commandName = "PING".toList then []
      else if commandName = "JOYSTICKS".toList then
        match parts[1]? with
        | none => []
        | some valuesStr =>
            let speeds := (splitComma valuesStr).filterMap parseFloat
            match speeds with
            | [a, b, c, d] =>
                [Effect.motorUpdate (calculate_motor_speeds ⟨a, b, c, d⟩)]
            | _ => [Effect.invalidCount valuesStr]
      else [Effect.unknownCommand cmd]

/-- Holds `true` exactly on the motor-update effect. -/
def isMotorUpdate : Effect → Bool
  | Effect.motorUpdate _ => true
  | _ => false

/-! ## Robot-side session decode loop (`robot.rs`, `tcp_server`) -/

/-- The `buffer.iter().position(|&b| b == b'\n')` probe together with the
`..pos` / `pos+1..` split: the line before the first delimiter and the
remainder after it, when a delimiter is present. -/
def splitAtNl : List Char → Option (List Char × List Char)
  | [] => none
  | c :: rest =>
      if c = '\n' then some ([], rest)
      else (splitAtNl rest).map (fun q => (c :: q.1, q.2))

/-- The inner `while let Some(pos)` framing loop in the case where every
`ACK` write succeeds: all complete lines in order, and the residual buffer
after the last delimiter. -/
def extractLines : List Char → List (List Char) × List Char
  | [] => ([], [])
  | c :: rest =>
      if c = '\n' then
        let q := extractLines rest
        ([] :: q.1, q.2)
      else
        match extractLines rest with
        | ([], r) => ([], c :: r)
        | (l :: ls, r) => ((c :: l) :: ls, r)

/-- Re-joining dispatched lines with their `'\n'` delimiters. -/
def joinNl (ls : List (List Char)) : List Char :=
  (ls.map (fun l => l ++ ['\n'])).join

/-- Session events observable from the inner loop: a line handed to
`handle_command`, a successful `ACK\n` write, or a failed one. -/
inductive SEvent where
  | dispatch (line : List Char)
  | ackSent
  | ackFailed
deriving DecidableEq, Repr

/-- The inner `while let Some(pos)` framing loop of `tcp_server`, with the
outcome of each `ACK` write given by the oracle `acks` (indexed by a running
write counter `k`): each complete line is dispatched, then `ACK\n` is
written; on write failure the loop breaks before draining, leaving the
buffer untouched. The fuel argument only bounds iteration (any value above
the buffer length is exact, `frameLoop_fuel` below). -/
def frameLoop (acks : Nat → Bool) :
    Nat → List Char → Nat → List SEvent × List Char × Nat
  | 0, buf, k => ([], buf, k)
  | fuel + 1, buf, k =>
      match splitAtNl buf with
      | none => ([], buf, k)
      | some (line, rest) =>
          if acks k then
            let q := frameLoop acks fuel rest (k + 1)
            (SEvent.dispatch line :: SEvent.ackSent :: q.1, q.2.1, q.2.2)
          else
            ([SEvent.dispatch line, SEvent.ackFailed], buf, k + 1)

/-- The event trace of a run of the framing loop in which every write
succeeds: per framed line, one dispatch followed by one `ACK`. -/
def ackTrace (lines : List (List Char)) : List SEvent :=
  lines.foldr (fun l evs => SEvent.dispatch l :: SEvent.ackSent :: evs) []

/-- One iteration of the outer read loop on a successfully read chunk:
append it to the accumulator, then drain all complete lines. -/
def feedStep (acc : List (List Char) × List Char) (chunk : List Char) :
    List (List Char) × List Char :=
  (acc.1 ++ (extractLines (acc.2 ++ chunk)).1,
   (extractLines (acc.2 ++ chunk)).2)

/-- Feeding a sequence of received chunks through the session (all `ACK`
writes succeeding): all dispatched lines in order, and the final residual
accumulator. -/
def feedChunks (chunks : List (List Char)) : List (List Char) × List Char :=
  chunks.foldl feedStep ([], [])

/-- Outcome of one `stream.read` call in the outer loop of `tcp_server`. -/
inductive ReadEvent where
  | chunk (data : List Char)
  | closed
  | wouldBlock
  | ioErr
deriving DecidableEq, Repr

/-- Robot-side per-connection session state: the growable accumulator and
the running index into the `ACK`-write oracle. -/
structure SessionState where
  buffer : List Char
  ackIdx : Nat
deriving DecidableEq, Repr

/-- One iteration of the outer `loop` of `tcp_server`: `Ok(0)` and hard
read errors `break` (session ends, `none`); `WouldBlock` sleeps and retries;
`Ok(n)` appends the chunk and runs the inner framing loop — which, on a
failed `ACK` write, merely exits with the buffer retained, so the outer
loop continues. -/
def sessionStep (acks : Nat → Bool) (st : SessionState) (ev : ReadEvent) :
    Option SessionState × List SEvent :=
  match ev with
  | ReadEvent.closed => (none, [])
  | ReadEvent.ioErr => (none, [])
  | ReadEvent.wouldBlock => (some st, [])
  | ReadEvent.chunk data =>
      let q := frameLoop acks ((st.buffer ++ data).length + 1)
        (st.buffer ++ data) st.ackIdx
      (some ⟨q.2.1, q.2.2⟩, q.1)

/-- Holds `true` exactly on the invalid-count report effect. -/
def isInvalidCount : Effect → Bool
  | Effect.invalidCount _ => true
  | _ => false

/-! ## Link receive semantics (`link.rs`) -/

/-- Raw outcome of one `read` call on an underlying transport handle:
`Ok(n)` with the bytes read (`n = 0` represented by `[]`), or an error of
the distinguished kind. -/
inductive RawRead where
  | ok (data : List Char)
  | errWouldBlock
  | errTimedOut
  | errOther
deriving DecidableEq, Repr

/-- The `enum ReadState` of `link.rs`, the result of `TcpLink::try_read`. -/
inductive ReadState where
  | message (s : List Char)
  | wouldBlock
  | disconnected
deriving DecidableEq, Repr

/-- Embeds `TcpLink::try_read`: `Ok(0)` signals graceful close, data is a
message, `WouldBlock` signals no data with the link alive, and any other
error (a timeout included) propagates as `Err`. -/
def tcpTryRead : RawRead → Except Unit ReadState
  | RawRead.ok [] => Except.ok ReadState.disconnected
  | RawRead.ok data => Except.ok (ReadState.message data)
  | RawRead.errWouldBlock => Except.ok ReadState.wouldBlock
  | RawRead.errTimedOut => Except.error ()
  | RawRead.errOther => Except.error ()

/-- Embeds `SerialLink::recv`: `Ok(0)` yields `None`, data yields `Some`,
a timeout yields `None`, and any other error (would-block included)
propagates as `Err`. -/
def serialRecv : RawRead → Except Unit (Option (List Char))
  | RawRead.ok [] => Except.ok none
  | RawRead.ok data => Except.ok (some data)
  | RawRead.errTimedOut => Except.ok none
  | RawRead.errWouldBlock => Except.error ()
  | RawRead.errOther => Except.error ()

/-! ## Operator-side connection supervisor and send path (`driver.rs`) -/

/-- An abstract live `TcpLink` handle held in the shared slot; only its
identity matters to the supervisor logic. -/
structure Link where
  id : Nat
deriving DecidableEq, Repr

/-- What the environment would answer during one supervisor cycle: the raw
outcome of `try_read` were a link present, and the outcome of
`TcpLink::connect` were the slot empty. -/
structure CycleOracle where
  raw : RawRead
  connect : Option Link
deriving DecidableEq, Repr

/-- The branch one supervisor cycle took: a `try_read` probe of the held
link, or a `TcpLink::connect` attempt on the candidate endpoint with the
given index. -/
inductive CycleAction where
  | probedRead
  | attemptedConnect (idx : Nat)
deriving DecidableEq, Repr

/-- Operator-side shared state: the link slot
(`Arc<Mutex<Option<TcpLink>>>`), the supervisor's `last_state`, and its
`current_address_index`. -/
structure DriverState where
  link : Option Link
  lastState : Bool
  addrIdx : Nat
deriving DecidableEq, Repr

/-- One iteration of the connection-supervisor loop in `driver.rs`: with a
link present, one `try_read` decides liveness (`Ok(Message)`/`Ok(WouldBlock)`
alive; `Ok(Disconnected)` or `Err` clears the slot); with the slot empty,
one `connect` attempt against the current candidate endpoint (success fills
the slot, failure advances the index modulo the endpoint count). The
`set_connected` notification is invoked exactly when the computed signal
differs from `last_state`, which is then updated. -/
def supervisorCycle (numAddrs : Nat) (st : DriverState) (oracle : CycleOracle) :
    DriverState × Option Bool × CycleAction :=
  let r : Bool × Option Link × Nat × CycleAction :=
    match st.link with
    | some l =>
        match tcpTryRead oracle.raw with
        | Except.ok (ReadState.message _) =>
            (true, some l, st.addrIdx, CycleAction.probedRead)
        | Except.ok ReadState.wouldBlock =>
            (true, some l, st.addrIdx, CycleAction.probedRead)
        | Except.ok ReadState.disconnected =>
            (false, none, st.addrIdx, CycleAction.probedRead)
        | Except.error _ =>
            (false, none, st.addrIdx, CycleAction.probedRead)
    | none =>
        match oracle.connect with
        | some l =>
            (true, some l, st.addrIdx, CycleAction.attemptedConnect st.addrIdx)
        | none =>
            (false, none, (st.addrIdx + 1) % numAddrs,
             CycleAction.attemptedConnect st.addrIdx)
  let notif := if r.1 ≠ st.lastState then some r.1 else none
  let lastState' := if r.1 ≠ st.lastState then r.1 else st.lastState
  (⟨r.2.1, lastState', r.2.2.1⟩, notif, r.2.2.2)

/-- Running the supervisor over a sequence of cycles: per cycle, the
computed connected signal and the notification (if any). -/
def runSupervisor (numAddrs : Nat) (st : DriverState) :
    List CycleOracle → List (Bool × Option Bool)
  | [] => []
  | o :: os =>
      let r := supervisorCycle numAddrs st o
      (r.1.lastState, r.2.1) :: runSupervisor numAddrs r.1 os

/-- The edge-triggered notification discipline: given the previous signal,
notify per cycle exactly when that cycle's signal differs from the previous
cycle's. -/
def edgeNotifs (last : Bool) : List Bool → List (Option Bool)
  | [] => []
  | c :: cs => (if c ≠ last then some c else none) :: edgeNotifs c cs

/-- The connected signal one supervisor cycle computes. -/
def cycleConnected (st : DriverState) (oracle : CycleOracle) : Bool :=
  match st.link with
  | some _ =>
      match tcpTryRead oracle.raw with
      | Except.ok (ReadState.message _) => true
      | Except.ok ReadState.wouldBlock => true
      | _ => false
  | none => oracle.connect.isSome

/-- Outcome of one `TcpLink::send` call. -/
inductive SendOutcome where
  | ok
  | err
deriving DecidableEq, Repr

/-- Embeds `send_to_robot`: under the lock, with no link present the
message is silently dropped; with a link present the message is sent
through it, and on send failure the slot is cleared and
`set_connected(false)` is invoked. Returns the new shared state and the
notification (if any). -/
def sendToRobot (st : DriverState) (outcome : SendOutcome) :
    DriverState × Option Bool :=
  match st.link with
  | none => (st, none)
  | some _ =>
      match outcome with
      | SendOutcome.ok => (st, none)
      | SendOutcome.err => (⟨none, st.lastState, st.addrIdx⟩, some false)

/-! ## Gamepad polling tick (`driver.rs`, the repeated timer closure) -/

/-- The gamepad axes the tick distinguishes (`gilrs::Axis`); `otherAxis`
covers every axis the closure ignores. -/
inductive GAxis where
  | leftStickX
  | leftStickY
  | rightStickX
  | rightStickY
  | otherAxis
deriving DecidableEq, Repr

/-- The gamepad events drained by one tick (`gilrs` events); `otherEvent`
covers the closure's final wildcard arm. Buttons carry an abstract
identifier. -/
inductive GEvent where
  | axisChanged (a : GAxis) (v : ℚ)
  | buttonPressed (b : Nat)
  | buttonReleased (b : Nat)
  | otherEvent
deriving DecidableEq, Repr

/-- One drained event applied to the tick's `joystick_values` sample: an
axis change overwrites its own axis (Y axes negated); every other event
leaves the sample untouched. -/
def applyEvent (s : JoystickData) (ev : GEvent) : JoystickData :=
  match ev with
  | GEvent.axisChanged GAxis.leftStickX v => { s with lx := v }
  | GEvent.axisChanged GAxis.leftStickY v => { s with ly := -v }
  | GEvent.axisChanged GAxis.rightStickX v => { s with rx := v }
  | GEvent.axisChanged GAxis.rightStickY v => { s with ry := -v }
  | _ => s

/-- The tick's sample: `joystick_values` is reset to all-zero at the start
of every tick, then each drained event is applied in order. -/
def tickSample (events : List GEvent) : JoystickData :=
  events.foldl applyEvent ⟨0, 0, 0, 0⟩

/-- Protocol messages the tick emits. -/
inductive DriverMsg where
  | ping
  | btn (b : Nat) (down : Bool)
  | joysticks (s : JoystickData)
deriving DecidableEq, Repr

/-- Messages emitted by one timer tick, in order: a `PING` when the
heartbeat is due, one `BTN` message per button edge as drained, then —
exactly when at least one event (of any kind) was drained — a single
`JOYSTICKS` message carrying the tick's sample. -/
def tickMessages (pingDue : Bool) (events : List GEvent) : List DriverMsg :=
  (if pingDue then [DriverMsg.ping] else []) ++
  events.filterMap (fun ev =>
    match ev with
    | GEvent.buttonPressed b => some (DriverMsg.btn b true)
    | GEvent.buttonReleased b => some (DriverMsg.btn b false)
    | _ => none) ++
  (if events.isEmpty then [] else [DriverMsg.joysticks (tickSample events)])

/-- Holds `true` exactly on the `JOYSTICKS` message. -/
def isJoysticksMsg : DriverMsg → Bool
  | DriverMsg.joysticks _ => true
  | _ => false

/-- The raw value of the most recent change event of an axis within the
tick, `0` when the axis saw no change event. -/
def lastAxisRaw (a : GAxis) (events : List GEvent) : ℚ :=
  events.foldl
    (fun acc ev =>
      match ev with
      | GEvent.axisChanged b v => if b = a then v else acc
      | _ => acc) 0

/-! ## Properties -/

theorem rabs_eq_abs (x : ℚ) : rabs x = |x| := by
  unfold rabs
  split
  · exact (abs_of_neg (by assumption)).symm
  · exact (abs_of_nonneg (le_of_not_lt (by assumption))).symm

theorem rmax_eq_max (a b : ℚ) : rmax a b = max a b := by
  unfold rmax
  rcases lt_trichotomy a b with h | h | h
  · simp [h, max_eq_right h.le]
  · simp [h]
  · simp [not_lt.mpr h.le, max_eq_left h.le]

theorem maxAbs4_eq (m : ℚ × ℚ × ℚ × ℚ) :
    maxAbs4 m = max (max (max (abs m.1) (abs m.2.1)) (abs m.2.2.1)) (abs m.2.2.2) := by
  simp [maxAbs4, rabs_eq_abs, rmax_eq_max]

theorem calculate_eq (d : JoystickData) :
    calculate_motor_speeds d =
      if maxAbs4 (rawSpeeds d) > 1 then
        scale4 (1 / maxAbs4 (rawSpeeds d)) (rawSpeeds d)
      else rawSpeeds d := by
  simp only [calculate_motor_speeds, rawSpeeds, maxAbs4, scale4]
  split
  · simp only [Prod.mk.injEq]
    refine ⟨by ring, by ring, by ring, by ring⟩
  · rfl

theorem maxAbs4_nonneg (m : ℚ × ℚ × ℚ × ℚ) : 0 ≤ maxAbs4 m := by
  rw [maxAbs4_eq]
  exact le_trans (abs_nonneg m.2.2.2) (le_max_right _ _)

theorem nth4_abs_le_maxAbs4 (m : ℚ × ℚ × ℚ × ℚ) (i : Fin 4) :
    abs (nth4 m i) ≤ maxAbs4 m := by
  rw [maxAbs4_eq]
  fin_cases i <;> simp only [nth4]
  · exact le_max_of_le_left (le_max_of_le_left (le_max_left _ _))
  · exact le_max_of_le_left (le_max_of_le_left (le_max_right _ _))
  · exact le_max_of_le_left (le_max_right _ _)
  · exact le_max_right _ _

theorem maxAbs4_le_iff (m : ℚ × ℚ × ℚ × ℚ) (b : ℚ) :
    maxAbs4 m ≤ b ↔ ∀ i : Fin 4, abs (nth4 m i) ≤ b := by
  constructor
  · intro h i
    exact le_trans (nth4_abs_le_maxAbs4 m i) h
  · intro h
    rw [maxAbs4_eq]
    refine max_le (max_le (max_le ?_ ?_) ?_) ?_
    · exact h 0
    · exact h 1
    · exact h 2
    · exact h 3

/-- The mapper output is the raw tuple scaled by some positive factor
(`1/peak` when `peak > 1`, `1` otherwise). -/
theorem calculate_scales (d : JoystickData) :
    ∃ c : ℚ, 0 < c ∧ calculate_motor_speeds d = scale4 c (rawSpeeds d) := by
  rw [calculate_eq]
  by_cases h : maxAbs4 (rawSpeeds d) > 1
  · refine ⟨1 / maxAbs4 (rawSpeeds d), ?_, by simp [h]⟩
    have h0 : (0:ℚ) < maxAbs4 (rawSpeeds d) := lt_trans one_pos h
    positivity
  · exact ⟨1, one_pos, by simp [h, scale4]⟩

theorem calculate_maxAbs4_le_one (d : JoystickData) :
    maxAbs4 (calculate_motor_speeds d) ≤ 1 := by
  rw [calculate_eq]
  by_cases h : maxAbs4 (rawSpeeds d) > 1
  · simp only [h, if_pos]
    rw [maxAbs4_le_iff]
    intro i
    have hp : (0:ℚ) < maxAbs4 (rawSpeeds d) := lt_trans one_pos h
    have hle := nth4_abs_le_maxAbs4 (rawSpeeds d) i
    have : nth4 (scale4 (1 / maxAbs4 (rawSpeeds d)) (rawSpeeds d)) i =
        nth4 (rawSpeeds d) i / maxAbs4 (rawSpeeds d) := by
      fin_cases i <;> simp [nth4, scale4] <;> ring
    rw [this, abs_div, abs_of_pos hp, div_le_one hp]
    exact hle
  · simp only [h, if_neg, ite_false]
    exact le_of_not_lt h

/-- Claim C2: for every input, the mapper output's peak absolute value is at
most `1.0 + ε` (indeed at most `1`), and the ratio between any two output
components equals the ratio of the corresponding pre-normalization raw speeds
(stated cross-multiplied; direction preserved); the input `(1,1,0,0)` yields
raw speeds `(2,0,-2,0)`, peak `2`, and output `(1,0,-1,0)`. -/
theorem C2_mapper_bounded_direction_preserved :
    (∀ (d : JoystickData) (ε : ℚ), 0 ≤ ε →
        maxAbs4 (calculate_motor_speeds d) ≤ 1 + ε) ∧
    (∀ (d : JoystickData) (i j : Fin 4),
        nth4 (calculate_motor_speeds d) i * nth4 (rawSpeeds d) j =
          nth4 (calculate_motor_speeds d) j * nth4 (rawSpeeds d) i) ∧
    rawSpeeds ⟨1, 1, 0, 0⟩ = (2, 0, -2, 0) ∧
    maxAbs4 (rawSpeeds ⟨1, 1, 0, 0⟩) = 2 ∧
    calculate_motor_speeds ⟨1, 1, 0, 0⟩ = (1, 0, -1, 0) := by
  refine ⟨?_, ?_, ?_, ?_, ?_⟩
  · intro d ε hε
    exact le_trans (calculate_maxAbs4_le_one d) (by linarith)
  · intro d i j
    obtain ⟨c, hc, heq⟩ := calculate_scales d
    rw [heq]
    fin_cases i <;> fin_cases j <;> simp only [nth4, scale4] <;> ring
  · norm_num [rawSpeeds]
  · norm_num [maxAbs4, rabs, rmax, rawSpeeds]
  · norm_num [calculate_motor_speeds, rabs, rmax]

theorem C2_mapper_bounded_direction_preserved_witness :
    (0:ℚ) ≤ 0 ∧ maxAbs4 (calculate_motor_speeds ⟨2, 0, 1, 0⟩) ≤ 1 + 0 ∧
    nth4 (calculate_motor_speeds ⟨2, 0, 1, 0⟩) 0 * nth4 (rawSpeeds ⟨2, 0, 1, 0⟩) 1 =
      nth4 (calculate_motor_speeds ⟨2, 0, 1, 0⟩) 1 * nth4 (rawSpeeds ⟨2, 0, 1, 0⟩) 0 :=
  ⟨le_rfl,
   C2_mapper_bounded_direction_preserved.1 ⟨2, 0, 1, 0⟩ 0 le_rfl,
   C2_mapper_bounded_direction_preserved.2.1 ⟨2, 0, 1, 0⟩ 0 1⟩

/-- Claim C3: whenever the peak absolute raw speed is at most `1.0`, the
mapper returns the raw speeds unchanged; the raw speeds are the fixed linear
combinations `m1 = lx+ly+rx`, `m2 = -lx+ly-rx`, `m3 = -lx-ly+rx`,
`m4 = lx-ly-rx` with `ry` unused; `(0,0,0,0)` maps to `(0,0,0,0)` and
`(1,0,0,0)` maps to `(1,-1,-1,1)` (raw `(1,-1,-1,1)`, peak `1`). -/
theorem C3_identity_below_peak :
    (∀ d : JoystickData, maxAbs4 (rawSpeeds d) ≤ 1 →
        calculate_motor_speeds d = rawSpeeds d) ∧
    (∀ d : JoystickData,
        rawSpeeds d = (d.lx + d.ly + d.rx, -d.lx + d.ly - d.rx,
                       -d.lx - d.ly + d.rx, d.lx - d.ly - d.rx)) ∧
    (∀ lx ly rx ry ry' : ℚ,
        calculate_motor_speeds ⟨lx, ly, rx, ry⟩ =
          calculate_motor_speeds ⟨lx, ly, rx, ry'⟩) ∧
    calculate_motor_speeds ⟨0, 0, 0, 0⟩ = (0, 0, 0, 0) ∧
    rawSpeeds ⟨1, 0, 0, 0⟩ = (1, -1, -1, 1) ∧
    maxAbs4 (rawSpeeds ⟨1, 0, 0, 0⟩) = 1 ∧
    calculate_motor_speeds ⟨1, 0, 0, 0⟩ = (1, -1, -1, 1) := by
  refine ⟨?_, fun d => rfl, fun lx ly rx ry ry' => rfl, ?_, ?_, ?_, ?_⟩
  · intro d h
    rw [calculate_eq, if_neg (not_lt.mpr h)]
  · norm_num [calculate_motor_speeds, rabs, rmax]
  · norm_num [rawSpeeds]
  · norm_num [maxAbs4, rabs, rmax, rawSpeeds]
  · norm_num [calculate_motor_speeds, rabs, rmax]

theorem C3_identity_below_peak_witness :
    maxAbs4 (rawSpeeds ⟨1, 0, 0, 0⟩) ≤ 1 ∧
    calculate_motor_speeds ⟨1, 0, 0, 0⟩ = rawSpeeds ⟨1, 0, 0, 0⟩ :=
  ⟨by norm_num [maxAbs4, rabs, rmax, rawSpeeds],
   C3_identity_below_peak.1 ⟨1, 0, 0, 0⟩
     (by norm_num [maxAbs4, rabs, rmax, rawSpeeds])⟩

/-- The function `extractLines` satisfies the loop unfolding: take the line before the
first delimiter, drain it (delimiter included), repeat. -/
theorem extractLines_unfold (buf : List Char) :
    extractLines buf =
      match splitAtNl buf with
      | none => ([], buf)
      | some (line, rest) =>
          ((line :: (extractLines rest).1), (extractLines rest).2) := by
  induction buf with
  | nil => rfl
  | cons c rest ih =>
      by_cases hc : c = '\n'
      · subst hc
        simp [extractLines, splitAtNl]
      · rw [show extractLines (c :: rest) =
              (match extractLines rest with
               | ([], r) => ([], c :: r)
               | (l :: ls, r) => ((c :: l) :: ls, r)) from by
            simp [extractLines, hc]]
        rw [show splitAtNl (c :: rest) =
              (splitAtNl rest).map (fun q => (c :: q.1, q.2)) from by
            simp [splitAtNl, hc]]
        cases hsp : splitAtNl rest with
        | none =>
            rw [ih, hsp]
            rfl
        | some p =>
            obtain ⟨l1, r1⟩ := p
            rw [ih, hsp]
            rfl

/-- Soundness of the framing loop on one buffer: the dispatched lines,
re-joined with their delimiters and followed by the residual buffer,
reconstruct the buffer exactly, and the residual holds no delimiter. -/
theorem extractLines_spec (buf : List Char) :
    joinNl (extractLines buf).1 ++ (extractLines buf).2 = buf ∧
    '\n' ∉ (extractLines buf).2 := by
  induction buf with
  | nil => exact ⟨rfl, by simp [extractLines]⟩
  | cons c rest ih =>
      by_cases hc : c = '\n'
      · subst hc
        refine ⟨?_, ?_⟩
        · simp only [extractLines, if_pos rfl, joinNl, List.map_cons,
            List.join_cons, List.nil_append, List.cons_append]
          exact congrArg _ ih.1
        · simpa [extractLines] using ih.2
      · cases hq : extractLines rest with
        | mk ls r =>
            cases ls with
            | nil =>
                have h1 : joinNl [] ++ r = rest := by
                  simpa [hq] using ih.1
                have h2 : '\n' ∉ r := by simpa [hq] using ih.2
                simp only [joinNl] at h1
                refine ⟨?_, ?_⟩
                · simp [extractLines, hc, hq, joinNl]
                  simpa using h1
                · simp only [extractLines, hc, if_neg hc, hq]
                  intro hmem
                  rcases List.mem_cons.mp hmem with h | h
                  · exact hc h.symm
                  · exact h2 h
            | cons l ls' =>
                have h1 : joinNl (l :: ls') ++ r = rest := by
                  simpa [hq] using ih.1
                have h2 : '\n' ∉ r := by simpa [hq] using ih.2
                refine ⟨?_, ?_⟩
                · simp only [extractLines, hc, if_neg hc, hq, joinNl,
                    List.map_cons, List.join_cons, List.cons_append,
                    List.append_assoc] at h1 ⊢
                  rw [← h1]
                  simp [List.append_assoc]
                · simp only [extractLines, hc, if_neg hc, hq]
                  exact h2

theorem splitAtNl_length {buf line rest : List Char}
    (h : splitAtNl buf = some (line, rest)) : rest.length < buf.length := by
  induction buf generalizing line rest with
  | nil => simp [splitAtNl] at h
  | cons c cs ih =>
      by_cases hc : c = '\n'
      · simp only [splitAtNl, if_pos hc, Option.some.injEq, Prod.mk.injEq] at h
        obtain ⟨-, h2⟩ := h
        subst h2
        simp
      · simp only [splitAtNl, if_neg hc] at h
        cases hq : splitAtNl cs with
        | none => rw [hq] at h; simp at h
        | some p =>
            obtain ⟨l1, r1⟩ := p
            rw [hq] at h
            simp only [Option.map, Option.some.injEq, Prod.mk.injEq] at h
            obtain ⟨-, h2⟩ := h
            subst h2
            exact Nat.lt_trans (ih hq) (by simp)

/-- With sufficient fuel, `frameLoop` does not depend on the fuel. -/
theorem frameLoop_fuel (acks : Nat → Bool) (f1 f2 : Nat) (buf : List Char)
    (k : Nat) (h1 : buf.length < f1) (h2 : buf.length < f2) :
    frameLoop acks f1 buf k = frameLoop acks f2 buf k := by
  induction f1 generalizing f2 buf k with
  | zero => omega
  | succ f1' ih =>
      cases f2 with
      | zero => omega
      | succ f2' =>
          simp only [frameLoop]
          cases hsp : splitAtNl buf with
          | none => rfl
          | some p =>
              obtain ⟨line, rest⟩ := p
              have hlen := splitAtNl_length hsp
              by_cases hk : acks k = true
              · simp only [hk, if_true]
                rw [ih f2' rest (k + 1) (by omega) (by omega)]
              · rw [Bool.not_eq_true] at hk
                simp only [hk, Bool.false_eq_true, if_false]

theorem ackTrace_cons (l : List Char) (ls : List (List Char)) :
    ackTrace (l :: ls) = SEvent.dispatch l :: SEvent.ackSent :: ackTrace ls := rfl

/-- When every `ACK` write succeeds, the framing loop dispatches exactly the
complete lines of the buffer, acknowledges each exactly once, and leaves the
residual of `extractLines`. -/
theorem frameLoop_allAck (fuel : Nat) : ∀ (buf : List Char) (k : Nat),
    buf.length < fuel →
    frameLoop (fun _ => true) fuel buf k =
      (ackTrace (extractLines buf).1, (extractLines buf).2,
       k + (extractLines buf).1.length) := by
  induction fuel with
  | zero => intro buf k h; omega
  | succ f ih =>
      intro buf k h
      have hunf := extractLines_unfold buf
      cases hsp : splitAtNl buf with
      | none =>
          rw [hsp] at hunf
          simp only [frameLoop, hsp, hunf, ackTrace]
          rfl
      | some p =>
          obtain ⟨line, rest⟩ := p
          rw [hsp] at hunf
          have hlen := splitAtNl_length hsp
          simp only [frameLoop, hsp, if_true]
          rw [ih rest (k + 1) (by omega), hunf, ackTrace_cons]
          simp [Prod.mk.injEq, Nat.add_comm, Nat.add_assoc, Nat.add_left_comm]

theorem joinNl_append (a b : List (List Char)) :
    joinNl (a ++ b) = joinNl a ++ joinNl b := by
  simp [joinNl]

theorem feedChunks_invariant : ∀ (chunks : List (List Char))
    (acc : List (List Char) × List Char),
    joinNl (chunks.foldl feedStep acc).1 ++ (chunks.foldl feedStep acc).2 =
      joinNl acc.1 ++ acc.2 ++ chunks.join ∧
    ('\n' ∉ acc.2 → '\n' ∉ (chunks.foldl feedStep acc).2) := by
  intro chunks
  induction chunks with
  | nil => intro acc; simp
  | cons ch chs ih =>
      intro acc
      have hstep := extractLines_spec (acc.2 ++ ch)
      constructor
      · rw [List.foldl_cons]
        rw [(ih (feedStep acc ch)).1]
        simp only [feedStep, joinNl_append, List.join_cons]
        rw [List.append_assoc (joinNl acc.1), hstep.1]
        simp [List.append_assoc]
      · intro _
        rw [List.foldl_cons]
        cases chs with
        | nil => simpa [feedStep] using hstep.2
        | cons c2 cs2 => exact (ih (feedStep acc ch)).2 (by simpa [feedStep] using hstep.2)

/-- Claim C4: for every sequence of received chunks, the decoder dispatches
exactly the newline-delimited lines of their concatenation, in order, once
each (re-joining the dispatched lines and the residual reconstructs the
input, and the residual holds no delimiter); each framed line is followed by
exactly one `ACK`; the concrete split feed
`"JOYSTICKS 0.1,0.2,0.3,0.4\nPI"` then `"NG\n"` dispatches exactly the two
commands in order, each acknowledged once. -/
theorem C4_decoder_framing :
    (∀ chunks : List (List Char),
        joinNl (feedChunks chunks).1 ++ (feedChunks chunks).2 = chunks.join ∧
        '\n' ∉ (feedChunks chunks).2) ∧
    (∀ (buf : List Char) (k : Nat),
        (frameLoop (fun _ => true) (buf.length + 1) buf k).1 =
          ackTrace (extractLines buf).1) ∧
    feedChunks ["JOYSTICKS 0.1,0.2,0.3,0.4\nPI".toList, "NG\n".toList] =
      (["JOYSTICKS 0.1,0.2,0.3,0.4".toList, "PING".toList], []) ∧
    ackTrace ["JOYSTICKS 0.1,0.2,0.3,0.4".toList, "PING".toList] =
      [SEvent.dispatch "JOYSTICKS 0.1,0.2,0.3,0.4".toList, SEvent.ackSent,
       SEvent.dispatch "PING".toList, SEvent.ackSent] := by
  refine ⟨?_, ?_, ?_, ?_⟩
  · intro chunks
    have h := feedChunks_invariant chunks ([], [])
    refine ⟨?_, h.2 (by simp)⟩
    simpa [feedChunks, joinNl] using h.1
  · intro buf k
    rw [frameLoop_allAck (buf.length + 1) buf k (by omega)]
  · decide
  · decide

/-- Claim C9: a failed `ACK\n` write does not terminate the robot-side
session — it only exits the inner framing loop with the accumulator
retained (remaining buffered lines included), and the outer read loop
continues; the session terminates exactly on a zero-byte read or a hard
read error. -/
theorem C9_ack_failure_nonfatal :
    (∀ (acks : Nat → Bool) (st : SessionState) (ev : ReadEvent),
        (sessionStep acks st ev).1 = none ↔
          ev = ReadEvent.closed ∨ ev = ReadEvent.ioErr) ∧
    (∀ (acks : Nat → Bool) (st : SessionState) (data line rest : List Char),
        splitAtNl (st.buffer ++ data) = some (line, rest) →
        acks st.ackIdx = false →
        sessionStep acks st (ReadEvent.chunk data) =
          (some ⟨st.buffer ++ data, st.ackIdx + 1⟩,
           [SEvent.dispatch line, SEvent.ackFailed])) := by
  constructor
  · intro acks st ev
    cases ev <;> simp [sessionStep]
  · intro acks st data line rest hsp hfail
    simp only [sessionStep, frameLoop, hsp, hfail, Bool.false_eq_true, if_false]

theorem C9_ack_failure_nonfatal_witness :
    splitAtNl (SessionState.buffer ⟨[], 0⟩ ++ "PING\n".toList) =
      some ("PING".toList, []) ∧
    (fun _ => false) (SessionState.ackIdx (⟨[], 0⟩ : SessionState)) = false ∧
    sessionStep (fun _ => false) ⟨[], 0⟩ (ReadEvent.chunk "PING\n".toList) =
      (some ⟨"PING\n".toList, 1⟩,
       [SEvent.dispatch "PING".toList, SEvent.ackFailed]) :=
  ⟨by decide, rfl,
   C9_ack_failure_nonfatal.2 (fun _ => false) ⟨[], 0⟩ "PING\n".toList
     "PING".toList [] (by decide) rfl⟩

/-- On a line whose first token is `JOYSTICKS` and which has a second
(payload) token — any further tokens ignored — `handle_command` keeps the
payload's comma segments that parse as floats and dispatches exactly when
four survive. -/
theorem handleCommand_joysticks (cmd vs : List Char) (rest : List (List Char))
    (h : splitWhitespace (trimWs cmd) = "JOYSTICKS".toList :: vs :: rest) :
    handleCommand cmd =
      match (splitComma vs).filterMap parseFloat with
      | [a, b, c, d] => [Effect.motorUpdate (calculate_motor_speeds ⟨a, b, c, d⟩)]
      | _ => [Effect.invalidCount vs] := by
  unfold handleCommand
  rw [h]
  simp only [List.head?, List.getElem?_cons_succ, List.getElem?_cons_zero]
  rw [if_neg (by decide), if_neg (by decide), if_pos trivial]

/-- On a line whose only token is `JOYSTICKS`, `handle_command` falls
through the `if let Some(values_str) = parts.get(1)` and does nothing. -/
theorem handleCommand_joysticks_bare (cmd : List Char)
    (h : splitWhitespace (trimWs cmd) = ["JOYSTICKS".toList]) :
    handleCommand cmd = [] := by
  unfold handleCommand
  rw [h]
  simp only [List.head?, List.getElem?_cons_succ, List.getElem?_nil]
  rw [if_neg (by decide), if_neg (by decide), if_pos trivial]

/-- Claim C1 fails as stated on the code: the dispatcher filters the
comma-separated tokens through `parse().ok()` and only counts the survivors,
so the payload `1,2,3,4,x` — which contains the non-numeric token `x` —
is dispatched as a motor update (the four numeric tokens survive) with no
parse-error report, contradicting "a payload containing a non-numeric token
is never dispatched". -/
theorem C1_counterexample_nonnumeric_dispatched :
    "x".toList ∈ splitComma "1,2,3,4,x".toList ∧
    parseFloat "x".toList = none ∧
    (handleCommand "JOYSTICKS 1,2,3,4,x".toList).any isMotorUpdate = true ∧
    (handleCommand "JOYSTICKS 1,2,3,4,x".toList).any isInvalidCount = false := by
  refine ⟨by decide, by decide, by decide, by decide⟩

/-- Claim C1 (amended): for every line whose first token is `JOYSTICKS`,
the dispatcher reads the second token as the payload (further tokens are
ignored; with no second token it does nothing), splits it on commas and
keeps the tokens that parse as floats; it invokes the Kinematic Mapper and
reports motor speeds if and only if exactly four survive, and on any other
surviving count it reports a recoverable invalid-count error and performs
no motor update. A payload of three values such as `JOYSTICKS 1,2,3` is
rejected, but non-numeric tokens are silently discarded before counting, so
a payload containing one can still be dispatched; exponent-form numerals
such as `1e0` count as numeric, as in the source. -/
theorem C1_amended_dispatch_iff_four_parsed :
    (∀ (cmd vs : List Char) (rest : List (List Char)),
        splitWhitespace (trimWs cmd) = "JOYSTICKS".toList :: vs :: rest →
        handleCommand cmd =
          (match (splitComma vs).filterMap parseFloat with
           | [a, b, c, d] =>
               [Effect.motorUpdate (calculate_motor_speeds ⟨a, b, c, d⟩)]
           | _ => [Effect.invalidCount vs]) ∧
        ((handleCommand cmd).any isMotorUpdate = true ↔
          ((splitComma vs).filterMap parseFloat).length = 4) ∧
        (((splitComma vs).filterMap parseFloat).length ≠ 4 →
          handleCommand cmd = [Effect.invalidCount vs])) ∧
    (∀ cmd : List Char,
        splitWhitespace (trimWs cmd) = ["JOYSTICKS".toList] →
        handleCommand cmd = []) ∧
    handleCommand "JOYSTICKS 1,2,3".toList =
      [Effect.invalidCount "1,2,3".toList] ∧
    (parseFloat "1e0".toList).isSome = true ∧
    (handleCommand "JOYSTICKS 1e0,2,3,4".toList).any isMotorUpdate = true := by
  refine ⟨?_, fun cmd h => handleCommand_joysticks_bare cmd h,
    by decide, by decide, by decide⟩
  intro cmd vs rest h
  have hc := handleCommand_joysticks cmd vs rest h
  rw [hc]
  rcases hl : (splitComma vs).filterMap parseFloat with
    _ | ⟨a, _ | ⟨b, _ | ⟨c, _ | ⟨d, _ | ⟨e, t⟩⟩⟩⟩⟩ <;>
    refine ⟨rfl, ?_, ?_⟩ <;> simp [isMotorUpdate, List.any]

theorem C1_amended_dispatch_iff_four_parsed_witness :
    splitWhitespace (trimWs "JOYSTICKS 1,2,3".toList) =
      "JOYSTICKS".toList :: "1,2,3".toList :: [] ∧
    ((splitComma "1,2,3".toList).filterMap parseFloat).length ≠ 4 ∧
    handleCommand "JOYSTICKS 1,2,3".toList =
      [Effect.invalidCount "1,2,3".toList] ∧
    splitWhitespace (trimWs "JOYSTICKS".toList) = ["JOYSTICKS".toList] ∧
    handleCommand "JOYSTICKS".toList = [] :=
  ⟨by decide, by decide,
   (C1_amended_dispatch_iff_four_parsed.1 "JOYSTICKS 1,2,3".toList
     "1,2,3".toList [] (by decide)).2.2 (by decide),
   by decide,
   C1_amended_dispatch_iff_four_parsed.2.1 "JOYSTICKS".toList (by decide)⟩

/-- Claim C10: a line consisting of the bare token `JOYSTICKS` with no
payload token is silently ignored — no motor update and no parse-error
report — unlike a malformed payload, which is reported as an invalid value
count. -/
theorem C10_bare_joysticks_silent :
    handleCommand "JOYSTICKS".toList = [] ∧
    handleCommand "JOYSTICKS 1,2".toList =
      [Effect.invalidCount "1,2".toList] :=
  ⟨by decide, by decide⟩

/-- Claim C8 fails on the code: `SerialLink::recv` maps a zero-byte read to
`Ok(None)`, the very outcome it returns for a read timeout, so a graceful
remote close is not distinguishable by the serial caller from the no-data
outcome — unlike `TcpLink::try_read`, where a zero-byte read yields
`Disconnected`, distinct from `WouldBlock`. -/
theorem C8_counterexample_zero_read_indistinguishable :
    serialRecv (RawRead.ok []) = serialRecv RawRead.errTimedOut ∧
    serialRecv (RawRead.ok []) = Except.ok none ∧
    tcpTryRead (RawRead.ok []) = Except.ok ReadState.disconnected ∧
    tcpTryRead RawRead.errWouldBlock = Except.ok ReadState.wouldBlock ∧
    ReadState.disconnected ≠ ReadState.wouldBlock :=
  ⟨rfl, rfl, rfl, rfl, by decide⟩

/-- Claim C8 (amended): the serial transport matches the TCP link under the
correspondence mapping `Message` to `Some` and the TCP would-block to the
serial timeout (both "no data, link alive"), and propagating other errors —
except that the serial link folds the zero-byte read into the no-data
outcome `None`, identical to its timeout result, so the graceful-close case
of `TcpLink::try_read` has no separately observable serial counterpart. -/
theorem C8_amended_serial_correspondence :
    (∀ data : List Char, data ≠ [] →
        serialRecv (RawRead.ok data) = Except.ok (some data) ∧
        tcpTryRead (RawRead.ok data) = Except.ok (ReadState.message data)) ∧
    serialRecv (RawRead.ok []) = Except.ok none ∧
    serialRecv RawRead.errTimedOut = Except.ok none ∧
    tcpTryRead (RawRead.ok []) = Except.ok ReadState.disconnected ∧
    tcpTryRead RawRead.errWouldBlock = Except.ok ReadState.wouldBlock ∧
    serialRecv RawRead.errOther = Except.error () ∧
    tcpTryRead RawRead.errOther = Except.error () := by
  refine ⟨?_, rfl, rfl, rfl, rfl, rfl, rfl⟩
  intro data hd
  cases data with
  | nil => exact absurd rfl hd
  | cons c cs => exact ⟨rfl, rfl⟩

theorem C8_amended_serial_correspondence_witness :
    "A".toList ≠ [] ∧
    serialRecv (RawRead.ok "A".toList) = Except.ok (some "A".toList) ∧
    tcpTryRead (RawRead.ok "A".toList) =
      Except.ok (ReadState.message "A".toList) :=
  ⟨by decide,
   (C8_amended_serial_correspondence.1 "A".toList (by decide)).1,
   (C8_amended_serial_correspondence.1 "A".toList (by decide)).2⟩

theorem if_ne_self (c last : Bool) : (if c ≠ last then c else last) = c := by
  by_cases h : c = last <;> simp [h]

theorem supervisorCycle_fst_lastState (n : Nat) (st : DriverState)
    (o : CycleOracle) :
    (supervisorCycle n st o).1.lastState = cycleConnected st o := by
  cases hl : st.link with
  | none =>
      cases hc : o.connect <;>
        simp [supervisorCycle, cycleConnected, hl, hc, if_ne_self]
  | some l =>
      cases h : tcpTryRead o.raw with
      | ok s =>
          cases s <;> simp [supervisorCycle, cycleConnected, hl, h, if_ne_self]
      | error e =>
          simp [supervisorCycle, cycleConnected, hl, h, if_ne_self]

theorem supervisorCycle_notif (n : Nat) (st : DriverState) (o : CycleOracle) :
    (supervisorCycle n st o).2.1 =
      (if cycleConnected st o ≠ st.lastState then some (cycleConnected st o)
       else none) := by
  cases hl : st.link with
  | none =>
      cases hc : o.connect <;>
        simp [supervisorCycle, cycleConnected, hl, hc]
  | some l =>
      cases h : tcpTryRead o.raw with
      | ok s =>
          cases s <;> simp [supervisorCycle, cycleConnected, hl, h]
      | error e =>
          simp [supervisorCycle, cycleConnected, hl, h]

/-- Claim C5: the `set_connected` notification is edge-triggered — for every
supervisor cycle sequence, a cycle notifies exactly when its connected
signal differs from the previous cycle's (the initial `last_state` standing
in before the first cycle); the cycle sequence
disconnected, connected, connected, disconnected from the initial state
produces exactly two notifications, connected then disconnected. -/
theorem C5_notifications_edge_triggered :
    (∀ (numAddrs : Nat) (st : DriverState) (oracles : List CycleOracle),
        (runSupervisor numAddrs st oracles).map Prod.snd =
          edgeNotifs st.lastState
            ((runSupervisor numAddrs st oracles).map Prod.fst)) ∧
    (runSupervisor 2 ⟨none, false, 0⟩
        [⟨RawRead.errOther, none⟩, ⟨RawRead.errOther, some ⟨0⟩⟩,
         ⟨RawRead.errWouldBlock, none⟩, ⟨RawRead.ok [], none⟩]).map Prod.fst =
      [false, true, true, false] ∧
    ((runSupervisor 2 ⟨none, false, 0⟩
        [⟨RawRead.errOther, none⟩, ⟨RawRead.errOther, some ⟨0⟩⟩,
         ⟨RawRead.errWouldBlock, none⟩, ⟨RawRead.ok [], none⟩]).filterMap
        Prod.snd) = [true, false] := by
  refine ⟨?_, by decide, by decide⟩
  intro numAddrs st oracles
  induction oracles generalizing st with
  | nil => rfl
  | cons o os ih =>
      simp only [runSupervisor, List.map_cons, edgeNotifs]
      congr 1
      · rw [supervisorCycle_notif, supervisorCycle_fst_lastState]
      · rw [ih ((supervisorCycle numAddrs st o).1),
          supervisorCycle_fst_lastState]

/-- Claim C6: a send failure while connected clears the shared link slot
(the message is dropped, nothing queued or retried), fires a disconnect
notification, and the next supervisor cycle — finding the slot empty —
takes the connect branch against the current candidate endpoint instead of
reusing the stale link. -/
theorem C6_send_failure_clears_link :
    ∀ (st : DriverState) (l : Link), st.link = some l →
      (sendToRobot st SendOutcome.err).1.link = none ∧
      (sendToRobot st SendOutcome.err).2 = some false ∧
      (∀ (numAddrs : Nat) (oracle : CycleOracle),
          (supervisorCycle numAddrs (sendToRobot st SendOutcome.err).1
              oracle).2.2 = CycleAction.attemptedConnect st.addrIdx) := by
  intro st l h
  refine ⟨by simp [sendToRobot, h], by simp [sendToRobot, h], ?_⟩
  intro numAddrs oracle
  cases hc : oracle.connect <;> simp [sendToRobot, h, supervisorCycle, hc]

theorem C6_send_failure_clears_link_witness :
    DriverState.link ⟨some ⟨7⟩, true, 1⟩ = some (⟨7⟩ : Link) ∧
    (sendToRobot ⟨some ⟨7⟩, true, 1⟩ SendOutcome.err).1.link = none ∧
    (sendToRobot ⟨some ⟨7⟩, true, 1⟩ SendOutcome.err).2 = some false ∧
    (supervisorCycle 2 (sendToRobot ⟨some ⟨7⟩, true, 1⟩ SendOutcome.err).1
        ⟨RawRead.errOther, none⟩).2.2 = CycleAction.attemptedConnect 1 :=
  ⟨rfl,
   (C6_send_failure_clears_link ⟨some ⟨7⟩, true, 1⟩ ⟨7⟩ rfl).1,
   (C6_send_failure_clears_link ⟨some ⟨7⟩, true, 1⟩ ⟨7⟩ rfl).2.1,
   (C6_send_failure_clears_link ⟨some ⟨7⟩, true, 1⟩ ⟨7⟩ rfl).2.2 2
     ⟨RawRead.errOther, none⟩⟩

theorem tickSample_eq (events : List GEvent) :
    tickSample events =
      ⟨lastAxisRaw GAxis.leftStickX events,
       -lastAxisRaw GAxis.leftStickY events,
       lastAxisRaw GAxis.rightStickX events,
       -lastAxisRaw GAxis.rightStickY events⟩ := by
  induction events using List.reverseRecOn with
  | nil => simp [tickSample, lastAxisRaw]
  | append_singleton es e ih =>
      simp only [tickSample, lastAxisRaw, List.foldl_append, List.foldl_cons,
        List.foldl_nil] at ih ⊢
      rw [ih]
      cases e with
      | axisChanged a v => cases a <;> simp [applyEvent]
      | buttonPressed b => simp [applyEvent]
      | buttonReleased b => simp [applyEvent]
      | otherEvent => simp [applyEvent]

theorem lastAxisRaw_append_last (a : GAxis) (events : List GEvent) (v : ℚ) :
    lastAxisRaw a (events ++ [GEvent.axisChanged a v]) = v := by
  simp [lastAxisRaw, List.foldl_append]

theorem lastAxisRaw_untouched (a : GAxis) (events : List GEvent)
    (h : ∀ v : ℚ, GEvent.axisChanged a v ∉ events) :
    lastAxisRaw a events = 0 := by
  induction events using List.reverseRecOn with
  | nil => rfl
  | append_singleton es e ih =>
      have hes : ∀ v : ℚ, GEvent.axisChanged a v ∉ es := by
        intro v hv
        exact h v (List.mem_append_left _ hv)
      simp only [lastAxisRaw, List.foldl_append, List.foldl_cons,
        List.foldl_nil] at ih ⊢
      rw [ih hes]
      cases e with
      | axisChanged b v =>
          have hb : b ≠ a := by
            intro hba
            subst hba
            exact h v (List.mem_append_right _ (List.mem_singleton.mpr rfl))
          simp [hb]
      | buttonPressed b => rfl
      | buttonReleased b => rfl
      | otherEvent => rfl

theorem tickMessages_filter (pingDue : Bool) (events : List GEvent) :
    (tickMessages pingDue events).filter isJoysticksMsg =
      (if events.isEmpty then []
       else [DriverMsg.joysticks (tickSample events)]) := by
  unfold tickMessages
  rw [List.filter_append, List.filter_append]
  have h1 : (if pingDue then [DriverMsg.ping] else []).filter
      isJoysticksMsg = [] := by
    cases pingDue <;> rfl
  have h2 : (events.filterMap fun ev =>
      match ev with
      | GEvent.buttonPressed b => some (DriverMsg.btn b true)
      | GEvent.buttonReleased b => some (DriverMsg.btn b false)
      | _ => none).filter isJoysticksMsg = [] := by
    induction events with
    | nil => rfl
    | cons e es ih =>
        cases e <;> simp_all [isJoysticksMsg] <;> exact ih
  rw [h1, h2]
  cases events <;> simp [isJoysticksMsg]

/-- Claim C7: on every tick that drained at least one input event (of any
kind), exactly one `JOYSTICKS` message is emitted, carrying per axis the
value of its most recent change event within the tick (Y axes sign-inverted
relative to raw input) and `0` for every axis without a change event this
tick — the sample is reset to all-zero each tick, so an unchanged axis
reports `0` rather than its last true value. -/
theorem C7_tick_emits_one_joysticks :
    (∀ (pingDue : Bool) (events : List GEvent), events ≠ [] →
        (tickMessages pingDue events).filter isJoysticksMsg =
          [DriverMsg.joysticks (tickSample events)]) ∧
    (∀ events : List GEvent,
        tickSample events =
          ⟨lastAxisRaw GAxis.leftStickX events,
           -lastAxisRaw GAxis.leftStickY events,
           lastAxisRaw GAxis.rightStickX events,
           -lastAxisRaw GAxis.rightStickY events⟩) ∧
    (∀ (a : GAxis) (events : List GEvent) (v : ℚ),
        lastAxisRaw a (events ++ [GEvent.axisChanged a v]) = v) ∧
    (∀ (a : GAxis) (events : List GEvent),
        (∀ v : ℚ, GEvent.axisChanged a v ∉ events) →
        lastAxisRaw a events = 0) := by
  refine ⟨?_, tickSample_eq, lastAxisRaw_append_last, lastAxisRaw_untouched⟩
  intro pingDue events h
  rw [tickMessages_filter]
  cases events with
  | nil => exact absurd rfl h
  | cons e es => rfl

theorem C7_tick_emits_one_joysticks_witness :
    ([GEvent.buttonPressed 0] ≠ ([] : List GEvent)) ∧
    (tickMessages true [GEvent.buttonPressed 0]).filter isJoysticksMsg =
      [DriverMsg.joysticks (tickSample [GEvent.buttonPressed 0])] ∧
    lastAxisRaw GAxis.leftStickY [GEvent.buttonPressed 0] = 0 :=
  ⟨by decide,
   C7_tick_emits_one_joysticks.1 true [GEvent.buttonPressed 0] (by decide),
   C7_tick_emits_one_joysticks.2.2.2 GAxis.leftStickY
     [GEvent.buttonPressed 0] (by intro v hv; simp at hv)⟩
